import Mathlib

/-!
# ArctosArmController — verification of the motion execution core and UI logic

This development embeds, in Lean 4, the parts of the ArctosArmController
repository that the specification talks about:

* the motion execution core (command queue, execution-loop tick, system state
  machine, telemetry shape, gesture action recognizer) — the Python backend
  sources (`backend/core/motion_service.py`, `backend/core/drivers/*`) are not
  part of the source tree given here, only their documentation and callers, so
  these components are modelled from the specification, as flagged on each
  definition;
* the React frontend logic that is present in the tree
  (`frontend/src/pages/MotorHoming.tsx`, `frontend/src/pages/MotorStatus.tsx`,
  `frontend/src/components/MotorCard.tsx`), translated directly from the
  TypeScript source.

Angles and durations are modelled as rationals (`ℚ`), time as discrete
execution-loop ticks.
-/

/-- Modelled from the spec: `SystemState` — enumeration `IDLE, HOMING, READY,
EXECUTING, PAUSED, ESTOPPED, ERROR` (spec §3); the backend module holding it is
missing from the source tree. -/
inductive SystemState where
  | IDLE
  | HOMING
  | READY
  | EXECUTING
  | PAUSED
  | ESTOPPED
  | ERROR
deriving DecidableEq, Repr

/-- Modelled from the spec: `MotionCommand` — tagged union of §3 (the backend
module holding it is missing from the source tree).  Angles in radians as
rationals. -/
inductive MotionCommand where
  | jointTarget (q : List ℚ) (duration_s : ℚ)
  | gripperTarget (position : ℚ)
  | homeJoints (indices : List ℕ)
  | saveOffset (index : ℕ)
  | estop
deriving DecidableEq, Repr

/-- Modelled from the spec: the joint-limit configuration, one `(low, high)`
pair per joint (spec §4.3 "the configured joint-limit range"). -/
abbrev JointLimits := List (ℚ × ℚ)

/-- Modelled from the spec: a joint vector is within the configured limits when
it has one entry per configured joint and each entry lies in its range
(spec §4.3; an entry for a joint that does not exist is the "unknown joint
index" case of §7). -/
def withinLimits : JointLimits → List ℚ → Bool
  | [], [] => true
  | l :: ls, a :: as' => decide (l.1 ≤ a) && decide (a ≤ l.2) && withinLimits ls as'
  | _, _ => false

/-- Modelled from the spec: enqueue-time validation (spec §4.3, §7): a joint
target is valid when all angles are within limits and `duration_s > 0`; a
gripper target when its position is in `[0,1]` (spec §3). -/
def validCommand (limits : JointLimits) : MotionCommand → Bool
  | .jointTarget q d => withinLimits limits q && decide (0 < d)
  | .gripperTarget p => decide (0 ≤ p) && decide (p ≤ 1)
  | _ => true

/-- Modelled from the spec: the command in progress — start vector captured at
dequeue, target vector, total duration and elapsed time (spec §4.2 step 4:
linear interpolation in joint space over `duration_s`). -/
structure ActiveCmd where
  start : List ℚ
  target : List ℚ
  total : ℚ
  elapsed : ℚ
deriving DecidableEq, Repr

/-- Modelled from the spec: the explicit context object owned by the Execution
Loop (spec §9): system state, bounded command queue, pending-EStop signal
(spec §9: "a priority signal checked at the top of every tick"), the Joint
State Store (positions `q`, signed encoder errors, limit-switch flags,
spec §3), the active command, the last processed command, and the driver-fault
flag (spec §4.1 failure semantics). -/
structure SysModel where
  st : SystemState
  queue : List MotionCommand
  capacity : ℕ
  pendingEstop : Bool
  q : List ℚ
  encErr : List ℤ
  limitFlags : List (Bool × Bool)
  active : Option ActiveCmd
  lastProcessed : Option MotionCommand
  driverFault : Bool
deriving DecidableEq, Repr

/-- Modelled from the spec: the initial context — system starts `IDLE`, empty
queue, all joints at rest, no fault. -/
def initModel : SysModel :=
  { st := .IDLE
    queue := []
    capacity := 16
    pendingEstop := false
    q := List.replicate 6 0
    encErr := List.replicate 6 0
    limitFlags := List.replicate 6 (false, false)
    active := none
    lastProcessed := none
    driverFault := false }

/-- Modelled from the spec: the error taxonomy relevant at enqueue time
(spec §7): `ValidationError` and the capacity error of §4.3, plus
`EStopAsserted` used as the safety interlock that keeps the queue empty while
`ESTOPPED` (spec §3 invariant). -/
inductive EnqueueError where
  | validationError
  | capacityError
  | estopAsserted
deriving DecidableEq, Repr

/-- Modelled from the spec: `enqueue` (spec §4.3).  An EStop is never appended:
it clears the queue immediately and raises the pending-EStop priority signal.
Any other command is validated first (`ValidationError`), rejected while the
system is `ESTOPPED` (so the queue stays flushed), and rejected with a capacity
error — not blocking — when the bounded queue is full; otherwise it is appended
at the tail (FIFO). -/
def enqueueCmd (limits : JointLimits) (s : SysModel) (c : MotionCommand) :
    Except EnqueueError SysModel :=
  if c = .estop then .ok { s with queue := [], pendingEstop := true }
  else if validCommand limits c = false then .error .validationError
  else if s.st = .ESTOPPED then .error .estopAsserted
  else if s.capacity ≤ s.queue.length then .error .capacityError
  else .ok { s with queue := s.queue ++ [c] }

/-- Modelled from the spec: total version of `enqueueCmd` used by the
reachability relation — a rejected enqueue leaves the system unchanged. -/
def enqueueStep (limits : JointLimits) (s : SysModel) (c : MotionCommand) : SysModel :=
  match enqueueCmd limits s c with
  | .ok s' => s'
  | .error _ => s

/-- What one tick of the execution loop did: whether `driver.estop()` was
invoked, which command (if any) was dequeued, and whether joint targets were
issued to the driver (interpolation). -/
structure TickLog where
  estopCalled : Bool
  dequeued : Option MotionCommand
  sentTargets : Bool
deriving DecidableEq, Repr

/-- The silent tick log: no estop, no dequeue, no targets issued. -/
def TickLog.none : TickLog := ⟨false, Option.none, false⟩

/-- Modelled from the spec: the fixed tick period (spec §4.2: fixed cadence,
e.g. 50 Hz). -/
def tickDt : ℚ := 1 / 50

/-- Linear interpolation `a + t * (b - a)` (spec §4.2 step 4). -/
def lerp (a b t : ℚ) : ℚ := a + t * (b - a)

/-- Componentwise linear interpolation of a joint vector. -/
def lerpList (xs ys : List ℚ) (t : ℚ) : List ℚ :=
  List.zipWith (fun a b => lerp a b t) xs ys

/-- Modelled from the spec: applying an EStop (spec §4.2 step 1):
`driver.estop()` is invoked (recorded in the tick log by the caller), the
Command Queue is flushed, `SystemState` becomes `ESTOPPED`, the in-flight
interpolation is cancelled and the pending signal is cleared. -/
def estopApply (s : SysModel) : SysModel :=
  { s with st := .ESTOPPED, queue := [], pendingEstop := false,
           active := none, lastProcessed := some .estop }

/-- Modelled from the spec: one interpolation step of the active command
(spec §4.2 step 4): advance elapsed time by one tick; when the duration has
elapsed the target is reached and the command completes with
`SystemState = READY`, otherwise the joint vector is re-issued at the linear
interpolant and the system stays `EXECUTING`. -/
def advanceActive (s : SysModel) (a : ActiveCmd) (deq : Option MotionCommand) :
    SysModel × TickLog :=
  let e := a.elapsed + tickDt
  if a.total ≤ e then
    ({ s with q := a.target, active := none, st := .READY }, ⟨false, deq, true⟩)
  else
    ({ s with q := lerpList a.start a.target (e / a.total),
              active := some { a with elapsed := e }, st := .EXECUTING },
     ⟨false, deq, true⟩)

/-- Modelled from the spec: starting a freshly dequeued command (spec §4.2
step 3/4).  A joint target captures the current joint vector as interpolation
start and immediately performs its first interpolation step; the other
commands (gripper, home, save-offset) are handled synchronously within the
tick and leave the system `READY`. -/
def startCmd (s : SysModel) : MotionCommand → SysModel × TickLog
  | .jointTarget q d =>
    advanceActive { s with lastProcessed := some (.jointTarget q d) }
      ⟨s.q, q, d, 0⟩ (some (.jointTarget q d))
  | c => ({ s with lastProcessed := some c, st := .READY }, ⟨false, some c, false⟩)

/-- Modelled from the spec: one tick of the Motion Execution Loop (spec §4.2).
Step 1: if an EStop is queued or pending, invoke `driver.estop()`, flush the
queue, set `ESTOPPED` and skip the remaining steps.  Step 2: `PAUSED` skips
dequeue/execute.  A driver fault forces `ERROR` and halts automatic dequeuing
(spec §4.1, §7); `ESTOPPED`/`ERROR` require manual recovery.  Step 3/4:
otherwise continue the active command, or dequeue the next command (FIFO). -/
def tick (s : SysModel) : SysModel × TickLog :=
  if s.pendingEstop = true ∨ MotionCommand.estop ∈ s.queue then
    (estopApply s, ⟨true, none, false⟩)
  else if s.st = .PAUSED then (s, TickLog.none)
  else if s.driverFault = true then ({ s with st := .ERROR }, TickLog.none)
  else if s.st = .ESTOPPED ∨ s.st = .ERROR then (s, TickLog.none)
  else
    match s.active with
    | some a => advanceActive s a none
    | none =>
      match s.queue with
      | [] => (s, TickLog.none)
      | c :: rest => startCmd { s with queue := rest } c

/-- Modelled from the spec: a driver fault (connection loss, timeout, bus
error) surfaces as `DriverFault` and forces `SystemState = ERROR`
(spec §4.1, §7). -/
def faultStep (s : SysModel) : SysModel :=
  { s with driverFault := true, st := .ERROR }

/-- Modelled from the spec: the explicit manual recovery action back to `IDLE`
(spec §4.2: `ERROR` requires manual recovery back to `IDLE`; §7: requires an
explicit recovery action).  It clears the fault and the processed-command
history. -/
def recoverStep (s : SysModel) : SysModel :=
  { s with st := .IDLE, driverFault := false, lastProcessed := none,
           pendingEstop := false, active := none }

/-- Modelled from the spec: the states the system can reach from the initial
context under producer enqueues, execution-loop ticks, driver faults and
manual recovery (spec §5 scheduling model). -/
inductive Reachable (limits : JointLimits) : SysModel → Prop where
  | init : Reachable limits initModel
  | enq {s : SysModel} (c : MotionCommand) :
      Reachable limits s → Reachable limits (enqueueStep limits s c)
  | tick {s : SysModel} :
      Reachable limits s → Reachable limits (tick s).1
  | fault {s : SysModel} :
      Reachable limits s → Reachable limits (faultStep s)
  | recover {s : SysModel} :
      Reachable limits s → Reachable limits (recoverStep s)

/-- C1: For every SystemState and every queue content, when an EStop command is
enqueued (or pending), the tick that processes it invokes `driver.estop()`,
sets SystemState to ESTOPPED, leaves the Command Queue empty, cancels the
active interpolation, and performs no dequeue or interpolation step in that
tick; and enqueueing EStop from any state reaches ESTOPPED with an empty queue
within one tick. -/
theorem estop_tick_immediate (limits : JointLimits) (s : SysModel) :
    ((s.pendingEstop = true ∨ MotionCommand.estop ∈ s.queue) →
      (tick s).2.estopCalled = true ∧
      (tick s).1.st = SystemState.ESTOPPED ∧
      (tick s).1.queue = [] ∧
      (tick s).1.active = none ∧
      (tick s).2.dequeued = none ∧
      (tick s).2.sentTargets = false) ∧
    ((tick (enqueueStep limits s .estop)).2.estopCalled = true ∧
      (tick (enqueueStep limits s .estop)).1.st = SystemState.ESTOPPED ∧
      (tick (enqueueStep limits s .estop)).1.queue = []) := by
  constructor
  · intro h
    unfold tick
    rw [if_pos h]
    simp [estopApply]
  · have henq : enqueueStep limits s .estop =
        { s with queue := [], pendingEstop := true } := rfl
    rw [henq]
    unfold tick
    rw [if_pos (Or.inl rfl)]
    simp [estopApply]

/-- Witness for `estop_tick_immediate`: a concrete state with a pending EStop,
evaluated. -/
theorem estop_tick_immediate_witness :
    ({ initModel with pendingEstop := true } : SysModel).pendingEstop = true ∧
    (tick { initModel with pendingEstop := true }).1.st = SystemState.ESTOPPED ∧
    (tick { initModel with pendingEstop := true }).1.queue = [] := by
  refine ⟨rfl, ?_, ?_⟩
  · exact ((estop_tick_immediate [] { initModel with pendingEstop := true }).1
      (Or.inl rfl)).2.1
  · exact ((estop_tick_immediate [] { initModel with pendingEstop := true }).1
      (Or.inl rfl)).2.2.1

/-- Linear interpolation between two values of an interval stays in the
interval. -/
lemma lerp_bounds {lo hi a b t : ℚ} (ha1 : lo ≤ a) (ha2 : a ≤ hi)
    (hb1 : lo ≤ b) (hb2 : b ≤ hi) (ht0 : 0 ≤ t) (ht1 : t ≤ 1) :
    lo ≤ lerp a b t ∧ lerp a b t ≤ hi := by
  unfold lerp
  constructor <;> nlinarith

/-- Componentwise interpolation between two in-limits joint vectors stays in
limits. -/
lemma withinLimits_lerpList {limits : JointLimits} {xs ys : List ℚ} {t : ℚ}
    (ht0 : 0 ≤ t) (ht1 : t ≤ 1)
    (hx : withinLimits limits xs = true) (hy : withinLimits limits ys = true) :
    withinLimits limits (lerpList xs ys t) = true := by
  induction limits generalizing xs ys with
  | nil =>
    cases xs with
    | nil =>
      cases ys with
      | nil => simp [lerpList, withinLimits]
      | cons y ys => simp [withinLimits] at hy
    | cons x xs => simp [withinLimits] at hx
  | cons l ls ih =>
    cases xs with
    | nil => simp [withinLimits] at hx
    | cons x xs =>
      cases ys with
      | nil => simp [withinLimits] at hy
      | cons y ys =>
        simp only [withinLimits, Bool.and_eq_true, decide_eq_true_eq] at hx hy
        have hb := lerp_bounds hx.1.1 hx.1.2 hy.1.1 hy.1.2 ht0 ht1
        simp only [lerpList, List.zipWith, withinLimits, Bool.and_eq_true,
          decide_eq_true_eq]
        exact ⟨⟨hb.1, hb.2⟩, ih hx.2 hy.2⟩

/-- Queue invariant: an EStop is never stored in the queue, and every queued
command passed enqueue-time validation. -/
def QueueInv (limits : JointLimits) (s : SysModel) : Prop :=
  MotionCommand.estop ∉ s.queue ∧ ∀ c ∈ s.queue, validCommand limits c = true

/-- EStop/state invariant: `ESTOPPED` holds exactly when the last processed
command was EStop and no driver fault has been reported since; the queue is
empty whenever `ESTOPPED`. -/
def EstopInv (s : SysModel) : Prop :=
  (s.st = .ESTOPPED → s.lastProcessed = some .estop ∧ s.queue = []) ∧
  (s.lastProcessed = some .estop ∧ s.driverFault = false → s.st = .ESTOPPED)

/-- Limits invariant: the Joint State Store stays within the configured
limits, and any active command interpolates between in-limits vectors over a
positive duration. -/
def LimitsInv (limits : JointLimits) (s : SysModel) : Prop :=
  withinLimits limits s.q = true ∧
  ∀ a, s.active = some a →
    withinLimits limits a.start = true ∧ withinLimits limits a.target = true ∧
    0 < a.total ∧ 0 ≤ a.elapsed

/-- Case analysis of `enqueueStep`: the enqueue either rejects (leaving the
system unchanged), applies an EStop (flushing the queue and raising the
pending signal), or appends a validated non-EStop command to a non-full,
non-ESTOPPED queue. -/
lemma enqueueStep_cases (limits : JointLimits) (s : SysModel) (c : MotionCommand) :
    enqueueStep limits s c = s ∨
    enqueueStep limits s c = { s with queue := [], pendingEstop := true } ∨
    (c ≠ .estop ∧ validCommand limits c = true ∧ s.st ≠ .ESTOPPED ∧
      s.queue.length < s.capacity ∧
      enqueueStep limits s c = { s with queue := s.queue ++ [c] }) := by
  unfold enqueueStep enqueueCmd
  by_cases h1 : c = .estop
  · simp [h1]
  · simp only [if_neg h1]
    by_cases h2 : validCommand limits c = false
    · simp [h2]
    · simp only [if_neg h2]
      by_cases h3 : s.st = .ESTOPPED
      · simp [h3]
      · simp only [if_neg h3]
        by_cases h4 : s.capacity ≤ s.queue.length
        · simp [h4]
        · simp only [if_neg h4]
          right; right
          exact ⟨h1, by simpa using h2, h3, by omega, trivial⟩

/-- Tick characterization: a queued or pending EStop is processed first. -/
lemma tick_estop {s : SysModel}
    (h : s.pendingEstop = true ∨ MotionCommand.estop ∈ s.queue) :
    tick s = (estopApply s, ⟨true, none, false⟩) := by
  unfold tick; rw [if_pos h]

/-- Tick characterization: `PAUSED` skips dequeue and execution. -/
lemma tick_paused {s : SysModel}
    (h1 : ¬(s.pendingEstop = true ∨ MotionCommand.estop ∈ s.queue))
    (h2 : s.st = .PAUSED) :
    tick s = (s, TickLog.none) := by
  unfold tick; rw [if_neg h1, if_pos h2]

/-- Tick characterization: a driver fault forces `ERROR`. -/
lemma tick_fault {s : SysModel}
    (h1 : ¬(s.pendingEstop = true ∨ MotionCommand.estop ∈ s.queue))
    (h2 : s.st ≠ .PAUSED) (h3 : s.driverFault = true) :
    tick s = ({ s with st := .ERROR }, TickLog.none) := by
  unfold tick; rw [if_neg h1, if_neg h2, if_pos h3]

/-- Tick characterization: `ESTOPPED`/`ERROR` halt automatic dequeuing. -/
lemma tick_halted {s : SysModel}
    (h1 : ¬(s.pendingEstop = true ∨ MotionCommand.estop ∈ s.queue))
    (h2 : s.st ≠ .PAUSED) (h3 : s.driverFault = false)
    (h4 : s.st = .ESTOPPED ∨ s.st = .ERROR) :
    tick s = (s, TickLog.none) := by
  unfold tick
  rw [if_neg h1, if_neg h2, if_neg (by simp [h3]), if_pos h4]

/-- Tick characterization: with an active command, the tick interpolates it. -/
lemma tick_active {s : SysModel} {a : ActiveCmd}
    (h1 : ¬(s.pendingEstop = true ∨ MotionCommand.estop ∈ s.queue))
    (h2 : s.st ≠ .PAUSED) (h3 : s.driverFault = false)
    (h4 : ¬(s.st = .ESTOPPED ∨ s.st = .ERROR))
    (hact : s.active = some a) :
    tick s = advanceActive s a none := by
  unfold tick
  rw [if_neg h1, if_neg h2, if_neg (by simp [h3]), if_neg h4, hact]

/-- Tick characterization: idle with an empty queue does nothing. -/
lemma tick_idleq {s : SysModel}
    (h1 : ¬(s.pendingEstop = true ∨ MotionCommand.estop ∈ s.queue))
    (h2 : s.st ≠ .PAUSED) (h3 : s.driverFault = false)
    (h4 : ¬(s.st = .ESTOPPED ∨ s.st = .ERROR))
    (hact : s.active = none) (hqu : s.queue = []) :
    tick s = (s, TickLog.none) := by
  unfold tick
  rw [if_neg h1, if_neg h2, if_neg (by simp [h3]), if_neg h4, hact, hqu]

/-- Tick characterization: with no active command the next queued command is
dequeued from the head (FIFO) and started. -/
lemma tick_dequeue {s : SysModel} {c : MotionCommand} {rest : List MotionCommand}
    (h1 : ¬(s.pendingEstop = true ∨ MotionCommand.estop ∈ s.queue))
    (h2 : s.st ≠ .PAUSED) (h3 : s.driverFault = false)
    (h4 : ¬(s.st = .ESTOPPED ∨ s.st = .ERROR))
    (hact : s.active = none) (hqu : s.queue = c :: rest) :
    tick s = startCmd { s with queue := rest } c := by
  unfold tick
  rw [if_neg h1, if_neg h2, if_neg (by simp [h3]), if_neg h4, hact, hqu]

/-- `advanceActive` when the duration elapses within this tick: the target is
reached and the command completes. -/
lemma advanceActive_done {s : SysModel} {a : ActiveCmd} {deq : Option MotionCommand}
    (h : a.total ≤ a.elapsed + tickDt) :
    advanceActive s a deq =
      ({ s with q := a.target, active := none, st := .READY }, ⟨false, deq, true⟩) := by
  simp only [advanceActive]
  rw [if_pos h]

/-- `advanceActive` mid-motion: the joint vector moves to the linear
interpolant and the command stays active. -/
lemma advanceActive_cont {s : SysModel} {a : ActiveCmd} {deq : Option MotionCommand}
    (h : ¬a.total ≤ a.elapsed + tickDt) :
    advanceActive s a deq =
      ({ s with q := lerpList a.start a.target ((a.elapsed + tickDt) / a.total),
                active := some { a with elapsed := a.elapsed + tickDt },
                st := .EXECUTING }, ⟨false, deq, true⟩) := by
  simp only [advanceActive]
  rw [if_neg h]

/-- The combined inductive invariant of every reachable state: the queue never
stores an EStop and holds only validated commands; `ESTOPPED` holds exactly
when the last processed command was EStop with no driver fault reported since,
and the queue is then flushed; and — whenever the configured limits admit the
rest pose — the Joint State Store and any active interpolation stay within the
configured limits. -/
lemma reachable_inv {limits : JointLimits} {s : SysModel} (h : Reachable limits s) :
    QueueInv limits s ∧ EstopInv s ∧
    (withinLimits limits (List.replicate 6 0) = true → LimitsInv limits s) := by
  have htdt : (0 : ℚ) < tickDt := by norm_num [tickDt]
  induction h with
  | init =>
    refine ⟨⟨by simp [initModel], by simp [initModel]⟩,
      ⟨by simp [initModel], by simp [initModel]⟩, ?_⟩
    intro hinit
    exact ⟨hinit, by simp [initModel]⟩
  | enq c hs ih =>
    rename_i s
    obtain ⟨hq, he, hl⟩ := ih
    rcases enqueueStep_cases limits s c with hcase | hcase | ⟨hcne, hcv, hst, _, hcase⟩
    · rw [hcase]; exact ⟨hq, he, hl⟩
    · rw [hcase]
      refine ⟨⟨by simp, by simp⟩, ⟨?_, ?_⟩, ?_⟩
      · intro hE
        exact ⟨(he.1 hE).1, rfl⟩
      · intro hE
        exact he.2 hE
      · intro hinit
        obtain ⟨h1, h2⟩ := hl hinit
        exact ⟨h1, h2⟩
    · rw [hcase]
      refine ⟨⟨?_, ?_⟩, ⟨?_, ?_⟩, ?_⟩
      · intro hmem
        rcases List.mem_append.mp hmem with hmem | hmem
        · exact hq.1 hmem
        · simp at hmem
          exact hcne hmem.symm
      · intro c' hmem
        rcases List.mem_append.mp hmem with hmem | hmem
        · exact hq.2 c' hmem
        · simp at hmem
          rw [hmem]; exact hcv
      · intro hE
        exact absurd hE hst
      · intro hE
        exact absurd (he.2 hE) hst
      · intro hinit
        obtain ⟨h1, h2⟩ := hl hinit
        exact ⟨h1, h2⟩
  | fault hs ih =>
    rename_i s
    obtain ⟨hq, he, hl⟩ := ih
    refine ⟨hq, ⟨?_, ?_⟩, ?_⟩
    · intro hE
      have : SystemState.ERROR = SystemState.ESTOPPED := hE
      simp at this
    · rintro ⟨_, hf⟩
      have : (true : Bool) = false := hf
      simp at this
    · intro hinit
      obtain ⟨h1, h2⟩ := hl hinit
      exact ⟨h1, h2⟩
  | recover hs ih =>
    rename_i s
    obtain ⟨hq, he, hl⟩ := ih
    refine ⟨hq, ⟨?_, ?_⟩, ?_⟩
    · intro hE
      have : SystemState.IDLE = SystemState.ESTOPPED := hE
      simp at this
    · rintro ⟨hp, _⟩
      have : (Option.none : Option MotionCommand) = some .estop := hp
      simp at this
    · intro hinit
      obtain ⟨h1, _⟩ := hl hinit
      refine ⟨h1, ?_⟩
      intro a ha
      have : (Option.none : Option ActiveCmd) = some a := ha
      simp at this
  | tick hs ih =>
    rename_i s
    obtain ⟨hq, he, hl⟩ := ih
    by_cases h1 : s.pendingEstop = true ∨ MotionCommand.estop ∈ s.queue
    · rw [tick_estop h1]
      refine ⟨⟨by simp [estopApply], by simp [estopApply]⟩, ⟨?_, ?_⟩, ?_⟩
      · intro _
        exact ⟨rfl, rfl⟩
      · intro _
        rfl
      · intro hinit
        obtain ⟨hw, _⟩ := hl hinit
        refine ⟨hw, ?_⟩
        intro a ha
        have : (Option.none : Option ActiveCmd) = some a := ha
        simp at this
    · by_cases h2 : s.st = .PAUSED
      · rw [tick_paused h1 h2]; exact ⟨hq, he, hl⟩
      · by_cases h3 : s.driverFault = true
        · rw [tick_fault h1 h2 h3]
          refine ⟨hq, ⟨?_, ?_⟩, ?_⟩
          · intro hE
            have : SystemState.ERROR = SystemState.ESTOPPED := hE
            simp at this
          · rintro ⟨_, hf⟩
            have hf' : s.driverFault = false := hf
            rw [h3] at hf'
            simp at hf'
          · intro hinit
            obtain ⟨ha, hb⟩ := hl hinit
            exact ⟨ha, hb⟩
        · have h3' : s.driverFault = false := by simpa using h3
          by_cases h4 : s.st = .ESTOPPED ∨ s.st = .ERROR
          · rw [tick_halted h1 h2 h3' h4]; exact ⟨hq, he, hl⟩
          · cases hact : s.active with
            | some a =>
              rw [tick_active h1 h2 h3' h4 hact]
              by_cases h5 : a.total ≤ a.elapsed + tickDt
              · rw [advanceActive_done h5]
                refine ⟨hq, ⟨?_, ?_⟩, ?_⟩
                · intro hE
                  have : SystemState.READY = SystemState.ESTOPPED := hE
                  simp at this
                · intro hE
                  exact absurd (he.2 hE) (fun hc => h4 (Or.inl hc))
                · intro hinit
                  obtain ⟨_, hactinv⟩ := hl hinit
                  obtain ⟨_, htg, _, _⟩ := hactinv a hact
                  refine ⟨htg, ?_⟩
                  intro a' ha'
                  have : (Option.none : Option ActiveCmd) = some a' := ha'
                  simp at this
              · rw [advanceActive_cont h5]
                refine ⟨hq, ⟨?_, ?_⟩, ?_⟩
                · intro hE
                  have : SystemState.EXECUTING = SystemState.ESTOPPED := hE
                  simp at this
                · intro hE
                  exact absurd (he.2 hE) (fun hc => h4 (Or.inl hc))
                · intro hinit
                  obtain ⟨_, hactinv⟩ := hl hinit
                  obtain ⟨hst', htg, htot, hel⟩ := hactinv a hact
                  have he0 : (0 : ℚ) ≤ a.elapsed + tickDt := by linarith
                  have he1 : a.elapsed + tickDt ≤ a.total := le_of_lt (lt_of_not_le h5)
                  refine ⟨?_, ?_⟩
                  · exact withinLimits_lerpList (div_nonneg he0 (le_of_lt htot))
                      ((div_le_one htot).mpr he1) hst' htg
                  · intro a' ha'
                    have ha'' : some { a with elapsed := a.elapsed + tickDt } = some a' := ha'
                    obtain rfl := (Option.some_inj.mp ha'').symm
                    exact ⟨hst', htg, htot, he0⟩
            | none =>
              cases hqu : s.queue with
              | nil =>
                rw [tick_idleq h1 h2 h3' h4 hact hqu]
                exact ⟨hq, he, hl⟩
              | cons c rest =>
                rw [tick_dequeue h1 h2 h3' h4 hact hqu]
                have hcmem : c ∈ s.queue := by rw [hqu]; exact List.mem_cons_self _ _
                have hcv : validCommand limits c = true := hq.2 c hcmem
                have hcne : c ≠ .estop := fun hh => hq.1 (hh ▸ hcmem)
                have hrq1 : MotionCommand.estop ∉ rest := by
                  intro hmem
                  exact hq.1 (by rw [hqu]; exact List.mem_cons_of_mem _ hmem)
                have hrq2 : ∀ c' ∈ rest, validCommand limits c' = true := by
                  intro c' hmem
                  exact hq.2 c' (by rw [hqu]; exact List.mem_cons_of_mem _ hmem)
                cases c with
                | jointTarget qt d =>
                  have hv : withinLimits limits qt = true ∧ 0 < d := by
                    simpa [validCommand] using hcv
                  show _ ∧ _ ∧ _
                  rw [show startCmd { s with queue := rest } (.jointTarget qt d) =
                    advanceActive
                      { s with queue := rest,
                               lastProcessed := some (.jointTarget qt d) }
                      ⟨s.q, qt, d, 0⟩ (some (.jointTarget qt d)) from rfl]
                  by_cases h5 : d ≤ 0 + tickDt
                  · rw [advanceActive_done (a := ⟨s.q, qt, d, 0⟩) h5]
                    refine ⟨⟨hrq1, hrq2⟩, ⟨?_, ?_⟩, ?_⟩
                    · intro hE
                      have : SystemState.READY = SystemState.ESTOPPED := hE
                      simp at this
                    · rintro ⟨hp, _⟩
                      have hp' : some (MotionCommand.jointTarget qt d) =
                          some .estop := hp
                      simp at hp'
                    · intro hinit
                      refine ⟨hv.1, ?_⟩
                      intro a' ha'
                      have : (Option.none : Option ActiveCmd) = some a' := ha'
                      simp at this
                  · rw [advanceActive_cont (a := ⟨s.q, qt, d, 0⟩) h5]
                    refine ⟨⟨hrq1, hrq2⟩, ⟨?_, ?_⟩, ?_⟩
                    · intro hE
                      have : SystemState.EXECUTING = SystemState.ESTOPPED := hE
                      simp at this
                    · rintro ⟨hp, _⟩
                      have hp' : some (MotionCommand.jointTarget qt d) =
                          some .estop := hp
                      simp at hp'
                    · intro hinit
                      obtain ⟨hwq, _⟩ := hl hinit
                      have he0 : (0 : ℚ) ≤ 0 + tickDt := by linarith
                      have he1 : (0 : ℚ) + tickDt ≤ d := le_of_lt (lt_of_not_le h5)
                      refine ⟨?_, ?_⟩
                      · exact withinLimits_lerpList
                          (div_nonneg he0 (le_of_lt hv.2))
                          ((div_le_one hv.2).mpr he1) hwq hv.1
                      · intro a' ha'
                        have ha'' : some (⟨s.q, qt, d, 0 + tickDt⟩ : ActiveCmd) =
                            some a' := ha'
                        obtain rfl := (Option.some_inj.mp ha'').symm
                        exact ⟨hwq, hv.1, hv.2, he0⟩
                | gripperTarget p =>
                  refine ⟨⟨hrq1, hrq2⟩, ⟨?_, ?_⟩, ?_⟩
                  · intro hE
                    have : SystemState.READY = SystemState.ESTOPPED := hE
                    simp at this
                  · rintro ⟨hp, _⟩
                    have hp' : some (MotionCommand.gripperTarget p) = some .estop := hp
                    simp at hp'
                  · intro hinit
                    obtain ⟨hwq, _⟩ := hl hinit
                    refine ⟨hwq, ?_⟩
                    intro a' ha'
                    exact (hl hinit).2 a' ha'
                | homeJoints idx =>
                  refine ⟨⟨hrq1, hrq2⟩, ⟨?_, ?_⟩, ?_⟩
                  · intro hE
                    have : SystemState.READY = SystemState.ESTOPPED := hE
                    simp at this
                  · rintro ⟨hp, _⟩
                    have hp' : some (MotionCommand.homeJoints idx) = some .estop := hp
                    simp at hp'
                  · intro hinit
                    obtain ⟨hwq, hainv⟩ := hl hinit
                    exact ⟨hwq, fun a' ha' => hainv a' ha'⟩
                | saveOffset idx =>
                  refine ⟨⟨hrq1, hrq2⟩, ⟨?_, ?_⟩, ?_⟩
                  · intro hE
                    have : SystemState.READY = SystemState.ESTOPPED := hE
                    simp at this
                  · rintro ⟨hp, _⟩
                    have hp' : some (MotionCommand.saveOffset idx) = some .estop := hp
                    simp at hp'
                  · intro hinit
                    obtain ⟨hwq, hainv⟩ := hl hinit
                    exact ⟨hwq, fun a' ha' => hainv a' ha'⟩
                | estop => exact absurd rfl hcne

/-- A demonstration joint-limit configuration: six joints, each limited to
`[-10, 10]` radians. -/
def limitsDemo : JointLimits := List.replicate 6 (-10, 10)

/-- C2 counterexample: in the reachable state obtained from the initial state
by a driver fault, the driver reports a fault but SystemState is ERROR, not
ESTOPPED — refuting, at this concrete state, the claimed biconditional
"ESTOPPED iff (last processed command was EStop or the Driver reports a
fault)". -/
theorem estopped_iff_counterexample :
    Reachable limitsDemo (faultStep initModel) ∧
    (faultStep initModel).driverFault = true ∧
    (faultStep initModel).st = SystemState.ERROR ∧
    ¬((faultStep initModel).st = SystemState.ESTOPPED ↔
      ((faultStep initModel).lastProcessed = some .estop ∨
        (faultStep initModel).driverFault = true)) := by
  refine ⟨Reachable.fault Reachable.init, rfl, rfl, ?_⟩
  intro hiff
  have h := hiff.mpr (Or.inr rfl)
  have h' : SystemState.ERROR = SystemState.ESTOPPED := h
  simp at h'

/-- C2 (amended): in every reachable state, SystemState is ESTOPPED only if
the last processed command was EStop — a driver fault forces ERROR instead —
and the Command Queue is empty whenever ESTOPPED (flushed atomically on
entering that state); conversely, if the last processed command was EStop and
no driver fault has been reported since, SystemState is ESTOPPED. -/
theorem estopped_state_invariant (limits : JointLimits) (s : SysModel)
    (h : Reachable limits s) :
    (s.st = SystemState.ESTOPPED →
      s.lastProcessed = some .estop ∧ s.queue = []) ∧
    ((s.lastProcessed = some .estop ∧ s.driverFault = false) →
      s.st = SystemState.ESTOPPED) :=
  (reachable_inv h).2.1

/-- Witness for `estopped_state_invariant`: the state reached by enqueueing an
EStop from the initial state and running one tick. -/
theorem estopped_state_invariant_witness :
    ((tick (enqueueStep limitsDemo initModel .estop)).1.st =
        SystemState.ESTOPPED →
      (tick (enqueueStep limitsDemo initModel .estop)).1.lastProcessed =
        some .estop ∧
      (tick (enqueueStep limitsDemo initModel .estop)).1.queue = []) ∧
    (((tick (enqueueStep limitsDemo initModel .estop)).1.lastProcessed =
        some .estop ∧
      (tick (enqueueStep limitsDemo initModel .estop)).1.driverFault = false) →
      (tick (enqueueStep limitsDemo initModel .estop)).1.st =
        SystemState.ESTOPPED) :=
  estopped_state_invariant limitsDemo _
    (Reachable.tick (Reachable.enq _ Reachable.init))

/-- C4: a JointTarget whose angles are out of the configured limits, or whose
duration is not positive, is rejected at enqueue with a ValidationError; the
system (queue and Joint State) is left unchanged; and consequently, in every
reachable state (whenever the limits admit the rest pose), the Joint State
stays within limits and every queued command passed validation — an
out-of-limits target never appears in Joint State. -/
theorem jointTarget_validation (limits : JointLimits) (s : SysModel)
    (q : List ℚ) (d : ℚ)
    (hbad : withinLimits limits q = false ∨ d ≤ 0) :
    enqueueCmd limits s (.jointTarget q d) = .error .validationError ∧
    enqueueStep limits s (.jointTarget q d) = s ∧
    (withinLimits limits (List.replicate 6 0) = true →
      ∀ s', Reachable limits s' →
        withinLimits limits s'.q = true ∧
        ∀ c ∈ s'.queue, validCommand limits c = true) := by
  have hv : validCommand limits (.jointTarget q d) = false := by
    rcases hbad with h | h
    · simp [validCommand, h]
    · have hnd : ¬(0 < d) := not_lt.mpr h
      simp [validCommand, hnd]
  have hcmd : enqueueCmd limits s (.jointTarget q d) = .error .validationError := by
    unfold enqueueCmd
    rw [if_neg (by simp), if_pos hv]
  refine ⟨hcmd, ?_, ?_⟩
  · unfold enqueueStep
    rw [hcmd]
  · intro hinit s' hs'
    obtain ⟨hq, _, hl⟩ := reachable_inv hs'
    exact ⟨(hl hinit).1, hq.2⟩

/-- Witness for `jointTarget_validation`: a concrete out-of-limits target
(first joint at 100 rad against limits `[-10,10]`) is rejected. -/
theorem jointTarget_validation_witness :
    (withinLimits limitsDemo [100, 0, 0, 0, 0, 0] = false ∨ (2 : ℚ) ≤ 0) ∧
    enqueueCmd limitsDemo initModel (.jointTarget [100, 0, 0, 0, 0, 0] 2) =
      .error .validationError ∧
    enqueueStep limitsDemo initModel (.jointTarget [100, 0, 0, 0, 0, 0] 2) =
      initModel := by
  have hbad : withinLimits limitsDemo [100, 0, 0, 0, 0, 0] = false ∨
      (2 : ℚ) ≤ 0 := Or.inl (by decide)
  have h := jointTarget_validation limitsDemo initModel [100, 0, 0, 0, 0, 0] 2 hbad
  exact ⟨hbad, h.1, h.2.1⟩

/-- A validated non-EStop command enqueued into a non-full queue outside
`ESTOPPED` is appended at the tail. -/
lemma enqueueStep_append {limits : JointLimits} {s : SysModel} {c : MotionCommand}
    (hcne : c ≠ .estop) (hcv : validCommand limits c = true)
    (hst : s.st ≠ .ESTOPPED) (hlen : s.queue.length < s.capacity) :
    enqueueStep limits s c = { s with queue := s.queue ++ [c] } := by
  unfold enqueueStep enqueueCmd
  rw [if_neg hcne, if_neg (by simp [hcv]), if_neg hst, if_neg (by omega)]

/-- Enqueueing a whole list of commands, in order. -/
def enqueueAll (limits : JointLimits) (s : SysModel) (cs : List MotionCommand) :
    SysModel :=
  cs.foldl (enqueueStep limits) s

/-- Enqueueing a list of validated non-EStop commands that fits in the
remaining capacity appends them in order (FIFO). -/
lemma enqueueAll_queue {limits : JointLimits} (cs : List MotionCommand) :
    ∀ s : SysModel, (∀ c ∈ cs, c ≠ .estop ∧ validCommand limits c = true) →
      s.st ≠ .ESTOPPED → s.queue.length + cs.length ≤ s.capacity →
      (enqueueAll limits s cs).queue = s.queue ++ cs := by
  induction cs with
  | nil =>
    intro s _ _ _
    simp [enqueueAll]
  | cons c cs ih =>
    intro s hall hst hlen
    have hc := hall c (List.mem_cons_self _ _)
    simp only [List.length_cons] at hlen
    have hstep := enqueueStep_append (s := s) hc.1 hc.2 hst (by omega)
    show (enqueueAll limits (enqueueStep limits s c) cs).queue = _
    rw [hstep]
    have hrec := ih { s with queue := s.queue ++ [c] }
      (fun c' hm => hall c' (List.mem_cons_of_mem _ hm)) hst
      (by simp; omega)
    rw [hrec]
    simp

/-- C5: the Command Queue is a bounded FIFO — (i) any list of valid non-EStop
commands that fits in the remaining capacity is enqueued in order at the tail;
(ii) the execution loop dequeues from the head, so commands leave in exactly
the order they entered; (iii) when the queue is full, enqueue returns a
capacity error immediately instead of blocking; and (iv) EStop bypasses
ordering — it is never appended, flushes the queue, and is executed on the
very next tick regardless of the queue content. -/
theorem cmdQueue_bounded_fifo (limits : JointLimits) (s : SysModel)
    (cs : List MotionCommand) (c : MotionCommand) (rest : List MotionCommand) :
    ((∀ c' ∈ cs, c' ≠ .estop ∧ validCommand limits c' = true) →
      s.st ≠ .ESTOPPED → s.queue.length + cs.length ≤ s.capacity →
      (enqueueAll limits s cs).queue = s.queue ++ cs) ∧
    (¬(s.pendingEstop = true ∨ MotionCommand.estop ∈ s.queue) →
      s.st ≠ .PAUSED → s.driverFault = false →
      ¬(s.st = .ESTOPPED ∨ s.st = .ERROR) →
      s.active = none → s.queue = c :: rest →
      (tick s).2.dequeued = some c ∧ (tick s).1.queue = rest) ∧
    (c ≠ .estop → validCommand limits c = true → s.st ≠ .ESTOPPED →
      s.capacity ≤ s.queue.length →
      enqueueCmd limits s c = .error .capacityError) ∧
    (enqueueCmd limits s .estop =
        .ok { s with queue := [], pendingEstop := true } ∧
      (tick (enqueueStep limits s .estop)).1.st = SystemState.ESTOPPED ∧
      (tick (enqueueStep limits s .estop)).2.estopCalled = true) := by
  refine ⟨fun hall hst hlen => enqueueAll_queue cs s hall hst hlen, ?_, ?_, ?_⟩
  · intro h1 h2 h3 h4 hact hqu
    rw [tick_dequeue h1 h2 h3 h4 hact hqu]
    cases c with
    | jointTarget qt d =>
      show (advanceActive _ ⟨s.q, qt, d, 0⟩ _).2.dequeued = _ ∧
        (advanceActive _ ⟨s.q, qt, d, 0⟩ _).1.queue = _
      by_cases h5 : (⟨s.q, qt, d, 0⟩ : ActiveCmd).total ≤
          (⟨s.q, qt, d, 0⟩ : ActiveCmd).elapsed + tickDt
      · rw [advanceActive_done h5]
        exact ⟨rfl, rfl⟩
      · rw [advanceActive_cont h5]
        exact ⟨rfl, rfl⟩
    | gripperTarget p => exact ⟨rfl, rfl⟩
    | homeJoints idx => exact ⟨rfl, rfl⟩
    | saveOffset idx => exact ⟨rfl, rfl⟩
    | estop => exact ⟨rfl, rfl⟩
  · intro h1c h2c h3c h4c
    unfold enqueueCmd
    rw [if_neg h1c, if_neg (by simp [h2c]), if_neg h3c, if_pos h4c]
  · refine ⟨by simp [enqueueCmd], ?_, ?_⟩
    · rw [show enqueueStep limits s .estop =
        { s with queue := [], pendingEstop := true } from rfl,
        tick_estop (Or.inl rfl)]
      rfl
    · rw [show enqueueStep limits s .estop =
        { s with queue := [], pendingEstop := true } from rfl,
        tick_estop (Or.inl rfl)]

/-- Witness for `cmdQueue_bounded_fifo`: two concrete valid commands enqueued
onto the empty initial queue come out appended in order. -/
theorem cmdQueue_bounded_fifo_witness :
    (enqueueAll limitsDemo initModel
      [.jointTarget [0, 0, 0, 0, 0, 0] 1, .gripperTarget 1]).queue =
    initModel.queue ++
      [.jointTarget [0, 0, 0, 0, 0, 0] 1, .gripperTarget 1] := by
  refine (cmdQueue_bounded_fifo limitsDemo initModel _ .estop []).1 ?_ ?_ ?_
  · intro c' hm
    simp only [List.mem_cons, List.not_mem_nil, or_false] at hm
    rcases hm with rfl | rfl
    · exact ⟨by decide, by decide⟩
    · exact ⟨by decide, by decide⟩
  · simp [initModel]
  · simp [initModel]

/-- One field value of a telemetry message. -/
inductive TelValue where
  | str (s : String)
  | nums (xs : List ℚ)
  | ints (xs : List ℤ)
  | limitPairs (xs : List (Bool × Bool))
deriving DecidableEq, Repr

/-- The wire name of each `SystemState` value. -/
def stateName : SystemState → String
  | .IDLE => "IDLE"
  | .HOMING => "HOMING"
  | .READY => "READY"
  | .EXECUTING => "EXECUTING"
  | .PAUSED => "PAUSED"
  | .ESTOPPED => "ESTOPPED"
  | .ERROR => "ERROR"

/-- Modelled from the spec: the telemetry message emitted per publish tick —
`{state, q: [6 floats], error: [6 ints], limits: [[bool,bool] x 6]}`
(spec §6) — as an ordered list of JSON fields; the Telemetry Publisher itself
(backend) is missing from the source tree. -/
def telemetryMessage (s : SysModel) : List (String × TelValue) :=
  [("state", .str (stateName s.st)),
   ("q", .nums s.q),
   ("error", .ints s.encErr),
   ("limits", .limitPairs s.limitFlags)]

/-- C6: every telemetry message consists of exactly the fields
`state, q, error, limits` — no more and no fewer; in particular the
`encoders` array read by `MotorHoming.tsx` and the `mode` field read by the
polling `MotorStatus` variant are absent from the feed. -/
theorem telemetry_shape (s : SysModel) :
    (telemetryMessage s).map Prod.fst = ["state", "q", "error", "limits"] ∧
    List.lookup "state" (telemetryMessage s) = some (.str (stateName s.st)) ∧
    List.lookup "q" (telemetryMessage s) = some (.nums s.q) ∧
    List.lookup "error" (telemetryMessage s) = some (.ints s.encErr) ∧
    List.lookup "limits" (telemetryMessage s) = some (.limitPairs s.limitFlags) ∧
    List.lookup "encoders" (telemetryMessage s) = none ∧
    List.lookup "mode" (telemetryMessage s) = none := by
  refine ⟨rfl, rfl, rfl, rfl, rfl, rfl, rfl⟩

/-- Modelled from the spec: per-label gesture action configuration
`{action, min_confidence, min_duration}` (spec §6); `min_duration` counted in
recognizer samples (one per loop iteration). -/
structure ActionConfig where
  action : String
  min_confidence : ℚ
  min_duration : ℕ
deriving DecidableEq, Repr

/-- Modelled from the spec: the external gesture action mapping
`{label -> {action, min_confidence, min_duration}}` (spec §6); "neutral" is
simply absent from the map (spec §4.5). -/
abbrev GestureConfig := List (String × ActionConfig)

/-- Modelled from the spec: `GestureSample` — a classified hand pose: label,
confidence, originating hand, timestamp (spec §3). -/
structure GestureSample where
  label : String
  confidence : ℚ
  leftHand : Bool
  timestamp : ℕ
deriving DecidableEq, Repr

/-- The debouncing state of the Gesture Action Recognizer: the label currently
observed, how many consecutive samples it has been observed for, and whether
its action has already fired during this hold. -/
structure DebState where
  curLabel : Option String
  count : ℕ
  fired : Bool
deriving DecidableEq, Repr

/-- The recognizer's debouncing state before any sample. -/
def DebState.initial : DebState := ⟨none, 0, false⟩

/-- Modelled from the spec: processing one `GestureSample` (spec §4.5).
Unmapped labels (including "neutral") and samples below the configured
confidence threshold are discarded as noise and break the consecutive
observation streak.  A mapped, sufficiently confident label extends (or
starts) the streak; its action is emitted exactly when the streak reaches
`min_duration` for the first time during this hold, and not again until the
label is released and re-asserted. -/
def processSample (cfg : GestureConfig) (st : DebState) (smp : GestureSample) :
    DebState × Option String :=
  match List.lookup smp.label cfg with
  | none => (DebState.initial, none)
  | some ac =>
    if smp.confidence < ac.min_confidence then (DebState.initial, none)
    else
      let c := if st.curLabel = some smp.label then st.count + 1 else 1
      let firedPrev := if st.curLabel = some smp.label then st.fired else false
      if ac.min_duration ≤ c ∧ firedPrev = false then
        (⟨some smp.label, c, true⟩, some ac.action)
      else
        (⟨some smp.label, c, firedPrev⟩, none)

/-- Running the recognizer over a sample stream, collecting emitted actions in
order. -/
def runRecognizer (cfg : GestureConfig) (st : DebState) :
    List GestureSample → DebState × List String
  | [] => (st, [])
  | smp :: rest =>
    let p := processSample cfg st smp
    let q := runRecognizer cfg p.1 rest
    (q.1, p.2.toList ++ q.2)

/-- Modelled from the spec: the Gesture Action Recognizer — its loop state is
the current action mapping, the debouncing state, and the running flag of its
loop (spec §4.5, §6). -/
structure Recognizer where
  config : GestureConfig
  deb : DebState
  running : Bool
deriving DecidableEq, Repr

/-- Modelled from the spec: the explicit reload call (spec §6: hot-reloadable
without restarting the recognizer's loop but requiring an explicit reload
call) — it replaces the mapping and touches nothing else. -/
def reloadConfig (r : Recognizer) (cfg : GestureConfig) : Recognizer :=
  { r with config := cfg }

/-- One iteration of the recognizer's loop on a running recognizer. -/
def recognizerStep (r : Recognizer) (smp : GestureSample) :
    Recognizer × Option String :=
  ((fun p => { r with deb := p.1 }) (processSample r.config r.deb smp),
   (processSample r.config r.deb smp).2)

/-- C7: an explicit reload call installs the new gesture action mapping
without restarting the recognizer's loop: after `reloadConfig` the loop is
still running with its debouncing state intact, and every subsequent sample is
processed exactly under the new mapping. -/
theorem gesture_config_reload (r : Recognizer) (cfg : GestureConfig)
    (smp : GestureSample) :
    (reloadConfig r cfg).config = cfg ∧
    (reloadConfig r cfg).running = r.running ∧
    (reloadConfig r cfg).deb = r.deb ∧
    recognizerStep (reloadConfig r cfg) smp =
      (({ config := cfg, deb := (processSample cfg r.deb smp).1,
          running := r.running } : Recognizer),
        (processSample cfg r.deb smp).2) :=
  ⟨rfl, rfl, rfl, rfl⟩

/-- Processing a mapped, confident sample whose label continues the current
streak. -/
lemma processSample_same {cfg : GestureConfig} {st : DebState}
    {smp : GestureSample} {ac : ActionConfig}
    (hlk : List.lookup smp.label cfg = some ac)
    (hconf : ¬(smp.confidence < ac.min_confidence))
    (hcur : st.curLabel = some smp.label) :
    processSample cfg st smp =
      if ac.min_duration ≤ st.count + 1 ∧ st.fired = false then
        (⟨some smp.label, st.count + 1, true⟩, some ac.action)
      else (⟨some smp.label, st.count + 1, st.fired⟩, none) := by
  simp only [processSample, hlk, if_neg hconf, hcur, if_pos]

/-- Processing a mapped, confident sample whose label starts a new streak. -/
lemma processSample_new {cfg : GestureConfig} {st : DebState}
    {smp : GestureSample} {ac : ActionConfig}
    (hlk : List.lookup smp.label cfg = some ac)
    (hconf : ¬(smp.confidence < ac.min_confidence))
    (hcur : st.curLabel ≠ some smp.label) :
    processSample cfg st smp =
      if ac.min_duration ≤ 1 then (⟨some smp.label, 1, true⟩, some ac.action)
      else (⟨some smp.label, 1, false⟩, none) := by
  simp only [processSample, hlk, if_neg hconf, if_neg hcur]
  simp

/-- Processing an unmapped (e.g. neutral) sample discards it and resets the
streak. -/
lemma processSample_unmapped {cfg : GestureConfig} {st : DebState}
    {smp : GestureSample} (hlk : List.lookup smp.label cfg = none) :
    processSample cfg st smp = (DebState.initial, none) := by
  simp [processSample, hlk]

/-- Running the recognizer over a concatenation composes. -/
lemma runRecognizer_append (cfg : GestureConfig) (st : DebState)
    (l1 l2 : List GestureSample) :
    runRecognizer cfg st (l1 ++ l2) =
      ((runRecognizer cfg (runRecognizer cfg st l1).1 l2).1,
       (runRecognizer cfg st l1).2 ++
         (runRecognizer cfg (runRecognizer cfg st l1).1 l2).2) := by
  induction l1 generalizing st with
  | nil => simp [runRecognizer]
  | cons smp rest ih => simp [runRecognizer, ih]

/-- Debouncing invariant along a held label: starting from a streak of `c ≥ 1`
consecutive observations (with the fired flag tracking whether the threshold
was already reached), `n` further observations extend the streak to `c + n`
and emit the action exactly once — precisely when the streak crosses
`min_duration`. -/
lemma runRecognizer_replicate {cfg : GestureConfig} {smp : GestureSample}
    {ac : ActionConfig}
    (hlk : List.lookup smp.label cfg = some ac)
    (hconf : ¬(smp.confidence < ac.min_confidence)) :
    ∀ (n c : ℕ), 1 ≤ c →
      runRecognizer cfg ⟨some smp.label, c, decide (ac.min_duration ≤ c)⟩
        (List.replicate n smp) =
      (⟨some smp.label, c + n, decide (ac.min_duration ≤ c + n)⟩,
       if ac.min_duration ≤ c + n ∧ ¬(ac.min_duration ≤ c) then [ac.action]
       else []) := by
  intro n
  induction n with
  | zero =>
    intro c hc
    simp [runRecognizer]
  | succ n ih =>
    intro c hc
    rw [List.replicate_succ]
    simp only [runRecognizer]
    rw [processSample_same hlk hconf rfl]
    by_cases hcross : ac.min_duration ≤ c + 1 ∧
        (decide (ac.min_duration ≤ c) : Bool) = false
    · rw [if_pos hcross]
      have hnotc : ¬(ac.min_duration ≤ c) := by
        simpa using hcross.2
      have htrue : (⟨some smp.label, c + 1, true⟩ : DebState) =
          ⟨some smp.label, c + 1, decide (ac.min_duration ≤ c + 1)⟩ := by
        simp [hcross.1]
      rw [htrue, ih (c + 1) (by omega)]
      have hrest : ¬(ac.min_duration ≤ c + 1 + n ∧ ¬(ac.min_duration ≤ c + 1)) := by
        intro hh
        exact hh.2 hcross.1
      rw [if_neg hrest]
      have hfinal : ac.min_duration ≤ c + (n + 1) ∧ ¬(ac.min_duration ≤ c) := by
        constructor
        · omega
        · exact hnotc
      rw [if_pos hfinal]
      have hcn : c + 1 + n = c + (n + 1) := by omega
      rw [hcn]
      simp
    · rw [if_neg hcross]
      have hfired : (⟨some smp.label, c + 1, decide (ac.min_duration ≤ c)⟩ :
          DebState) =
          ⟨some smp.label, c + 1, decide (ac.min_duration ≤ c + 1)⟩ := by
        by_cases hdc : ac.min_duration ≤ c
        · simp [hdc, Nat.le_succ_of_le hdc]
        · have hdc1 : ¬(ac.min_duration ≤ c + 1) := by
            intro hh
            exact hcross ⟨hh, by simpa using hdc⟩
          simp [hdc, hdc1]
      rw [hfired, ih (c + 1) (by omega)]
      by_cases hdc : ac.min_duration ≤ c
      · have h1 : ¬(ac.min_duration ≤ c + 1 + n ∧ ¬(ac.min_duration ≤ c + 1)) := by
          intro hh
          exact hh.2 (Nat.le_succ_of_le hdc)
        have h2 : ¬(ac.min_duration ≤ c + (n + 1) ∧ ¬(ac.min_duration ≤ c)) := by
          intro hh
          exact hh.2 hdc
        rw [if_neg h1, if_neg h2]
        have hcn : c + 1 + n = c + (n + 1) := by omega
        rw [hcn]
        simp
      · have hdc1 : ¬(ac.min_duration ≤ c + 1) := by
          intro hh
          exact hcross ⟨hh, by simpa using hdc⟩
        have hcond : (ac.min_duration ≤ c + 1 + n ∧ ¬(ac.min_duration ≤ c + 1)) ↔
            (ac.min_duration ≤ c + (n + 1) ∧ ¬(ac.min_duration ≤ c)) := by
          constructor
          · intro hh
            exact ⟨by omega, hdc⟩
          · intro hh
            exact ⟨by omega, hdc1⟩
        by_cases hfin : ac.min_duration ≤ c + (n + 1) ∧ ¬(ac.min_duration ≤ c)
        · rw [if_pos (hcond.mpr hfin), if_pos hfin]
          have hcn : c + 1 + n = c + (n + 1) := by omega
          rw [hcn]
          simp
        · rw [if_neg (fun hh => hfin (hcond.mp hh)), if_neg hfin]
          have hcn : c + 1 + n = c + (n + 1) := by omega
          rw [hcn]
          simp

/-- Running the recognizer from the initial state over `n ≥ 1` consecutive
observations of a mapped, confident label: the streak reaches `n` and the
action is emitted exactly once if and only if `n` reaches `min_duration`. -/
lemma runRecognizer_initial {cfg : GestureConfig} {smp : GestureSample}
    {ac : ActionConfig}
    (hlk : List.lookup smp.label cfg = some ac)
    (hconf : ¬(smp.confidence < ac.min_confidence))
    (hd : 1 ≤ ac.min_duration) :
    ∀ n : ℕ, 1 ≤ n →
      runRecognizer cfg DebState.initial (List.replicate n smp) =
        (⟨some smp.label, n, decide (ac.min_duration ≤ n)⟩,
         if ac.min_duration ≤ n then [ac.action] else []) := by
  intro n hn
  obtain ⟨m, rfl⟩ : ∃ m, n = m + 1 := ⟨n - 1, by omega⟩
  rw [List.replicate_succ]
  simp only [runRecognizer]
  rw [processSample_new hlk hconf (by simp [DebState.initial])]
  by_cases h1 : ac.min_duration ≤ 1
  · rw [if_pos h1]
    have hst : (⟨some smp.label, 1, true⟩ : DebState) =
        ⟨some smp.label, 1, decide (ac.min_duration ≤ 1)⟩ := by simp [h1]
    rw [hst, runRecognizer_replicate hlk hconf m 1 le_rfl,
      if_neg (fun hh => hh.2 h1)]
    have hcn : 1 + m = m + 1 := by omega
    rw [hcn, if_pos (by omega : ac.min_duration ≤ m + 1)]
    simp
  · rw [if_neg h1]
    have hst : (⟨some smp.label, 1, false⟩ : DebState) =
        ⟨some smp.label, 1, decide (ac.min_duration ≤ 1)⟩ := by simp [h1]
    rw [hst, runRecognizer_replicate hlk hconf m 1 le_rfl]
    have hcn : 1 + m = m + 1 := by omega
    rw [hcn]
    by_cases h2 : ac.min_duration ≤ m + 1
    · rw [if_pos ⟨h2, h1⟩, if_pos h2]
      simp
    · rw [if_neg (fun hh => h2 hh.1), if_neg h2]
      simp

/-- C8: for a mapped label with configured minimum duration `d ≥ 1` (in
samples): observed consecutively for fewer than `d` samples, its action is
never emitted; observed for at least `d` samples, the action is emitted
exactly once no matter how long the hold continues; and after a release (an
unmapped sample breaking the streak) it is emitted again only when the label
is re-asserted for at least `d` consecutive samples. -/
theorem gesture_min_duration (cfg : GestureConfig) (act : String) (mc : ℚ)
    (d n m : ℕ) (smp rel : GestureSample)
    (hlk : List.lookup smp.label cfg = some ⟨act, mc, d⟩)
    (hd : 1 ≤ d) (hconf : ¬(smp.confidence < mc))
    (hrel : List.lookup rel.label cfg = none) :
    (n < d →
      (runRecognizer cfg DebState.initial (List.replicate n smp)).2 = []) ∧
    (d ≤ n →
      (runRecognizer cfg DebState.initial (List.replicate n smp)).2 = [act]) ∧
    (d ≤ n → m < d →
      (runRecognizer cfg DebState.initial
        (List.replicate n smp ++ rel :: List.replicate m smp)).2 = [act]) ∧
    (d ≤ n → d ≤ m →
      (runRecognizer cfg DebState.initial
        (List.replicate n smp ++ rel :: List.replicate m smp)).2 =
        [act, act]) := by
  have hout : ∀ k : ℕ,
      (runRecognizer cfg DebState.initial (List.replicate k smp)).2 =
        if d ≤ k then [act] else [] := by
    intro k
    cases k with
    | zero =>
      rw [if_neg (by omega)]
      simp [runRecognizer]
    | succ k =>
      rw [runRecognizer_initial hlk hconf hd (k + 1) (by omega)]
  have htail : ∀ k : ℕ, ∀ st : DebState,
      (runRecognizer cfg st (rel :: List.replicate k smp)).2 =
        if d ≤ k then [act] else [] := by
    intro k st
    simp only [runRecognizer]
    rw [processSample_unmapped hrel]
    simp only [Option.toList, List.nil_append]
    exact hout k
  refine ⟨?_, ?_, ?_, ?_⟩
  · intro hn
    rw [hout n, if_neg (by omega)]
  · intro hn
    rw [hout n, if_pos hn]
  · intro hn hm
    rw [runRecognizer_append, hout n, if_pos hn, htail m, if_neg (by omega)]
    simp
  · intro hn hm
    rw [runRecognizer_append, hout n, if_pos hn, htail m, if_pos hm]
    rfl

/-- A demonstration gesture mapping: the rock-and-roll gesture zeroes all
joints after 2 consecutive samples. -/
def cfgDemo : GestureConfig :=
  [("rock_and_roll", ⟨"zero_all_joints", 0, 2⟩)]

/-- A demonstration sample of the mapped gesture at full confidence. -/
def smpDemo : GestureSample := ⟨"rock_and_roll", 1, false, 0⟩

/-- A demonstration neutral (unmapped) sample. -/
def relDemo : GestureSample := ⟨"neutral", 1, false, 0⟩

/-- Witness for `gesture_min_duration`: one sample of the demo gesture (below
the 2-sample minimum) emits nothing; three samples emit the action exactly
once. -/
theorem gesture_min_duration_witness :
    (runRecognizer cfgDemo DebState.initial (List.replicate 1 smpDemo)).2 =
      [] ∧
    (runRecognizer cfgDemo DebState.initial (List.replicate 3 smpDemo)).2 =
      ["zero_all_joints"] := by
  constructor
  · exact (gesture_min_duration cfgDemo "zero_all_joints" 0 2 1 0 smpDemo
      relDemo rfl (by omega) (by decide) rfl).1 (by omega)
  · exact (gesture_min_duration cfgDemo "zero_all_joints" 0 2 3 0 smpDemo
      relDemo rfl (by omega) (by decide) rfl).2.1 (by omega)

/-- From `MotorHoming.tsx`: the per-motor homing status values. -/
inductive HomingStatus where
  | idle
  | homing
  | success
  | error
deriving DecidableEq, Repr

/-- From `MotorHoming.tsx` (`homeSelectedMotors`): the status map after the
single `home_joints` request resolves — every selected motor receives the same
status, `success` when the request succeeded and `error` when it failed;
unselected motors keep their previous status. -/
def homeSelectedResult (selected : List ℕ) (requestOk : Bool)
    (st : ℕ → HomingStatus) : ℕ → HomingStatus :=
  fun i =>
    if i ∈ selected then (if requestOk then .success else .error) else st i

/-- C3 counterexample: homing motors `{0, 2}` from the UI, no request outcome
can leave joint 0 with `success` while joint 2 has `error` — the frontend
marks every selected motor with the same aggregated status, so when the
request for `{0, 2}` fails (joint 2 reporting a driver fault), joint 0 is
marked `error` as well, refuting per-joint attribution. -/
theorem home_per_joint_counterexample :
    (∀ ok : Bool,
      ¬(homeSelectedResult [0, 2] ok (fun _ => .idle) 0 = .success ∧
        homeSelectedResult [0, 2] ok (fun _ => .idle) 2 = .error)) ∧
    homeSelectedResult [0, 2] false (fun _ => .idle) 0 = .error ∧
    homeSelectedResult [0, 2] false (fun _ => .idle) 2 = .error := by
  decide

/-- C3 (amended): the UI reports homing results in aggregate, not per joint —
after `home_joints` for a set of selected motors, every selected motor carries
the same status (`success` if the request succeeded, `error` if it failed,
regardless of which joint caused the failure), and unselected motors are
untouched. -/
theorem home_aggregate_status (selected : List ℕ) (ok : Bool)
    (st : ℕ → HomingStatus) (i : ℕ) :
    (i ∈ selected →
      homeSelectedResult selected ok st i =
        (if ok then .success else .error)) ∧
    (i ∉ selected → homeSelectedResult selected ok st i = st i) := by
  constructor
  · intro h
    simp [homeSelectedResult, h]
  · intro h
    simp [homeSelectedResult, h]

/-- Witness for `home_aggregate_status`: motor 0 selected in a failed request
is marked `error`. -/
theorem home_aggregate_status_witness :
    homeSelectedResult [0, 2] false (fun _ => .idle) 0 = HomingStatus.error :=
  (home_aggregate_status [0, 2] false (fun _ => .idle) 0).1 (by decide)

/-- From `MotorStatus.tsx`: JavaScript `Math.sign` on an integer. -/
def jsSign (x : ℤ) : ℤ := if 0 < x then 1 else if x < 0 then -1 else 0

/-- From `MotorStatus.tsx` (`saveChanges` / speed `onChange`): the sign of a
speed value with 0 treated as positive
(`signSource === 0 ? 1 : Math.sign(signSource)`). -/
def speedSign (x : ℤ) : ℤ := if x = 0 then 1 else jsSign x

/-- From `MotorStatus.tsx` (speed input `onChange`): parse the entered text
(`none` models `NaN`), take its absolute magnitude (`NaN` becomes 0), and
store it signed with the original configured direction, falling back to the
currently stored value's sign when the motor is missing from `originalMotors`
(`currentOriginal?.speed_rpm ?? m.speed_rpm`). -/
def speedOnChange (original : Option ℤ) (current : ℤ) (input : Option ℤ) : ℤ :=
  speedSign (original.getD current) *
    ((match input with
      | none => 0
      | some v => v.natAbs : ℕ) : ℤ)

/-- From `MotorStatus.tsx` (`saveChanges`): the speed value transmitted to the
server — sent only when the magnitude changed
(`Math.abs(currentSpeed) !== Math.abs(originalSpeed)`), re-signed with the
original direction (`originalSpeedSign * Math.abs(currentSpeed)`). -/
def speedUpdate (original current : ℤ) : Option ℤ :=
  if current.natAbs ≠ original.natAbs then
    some (speedSign original * (current.natAbs : ℤ))
  else none

/-- From `MotorStatus.tsx` (`hasChanges`, speed clause):
`Math.abs(motor.speed_rpm) !== Math.abs(original.speed_rpm)`. -/
def speedHasChanges (original current : ℤ) : Bool :=
  decide (current.natAbs ≠ original.natAbs)

/-- The 0-as-positive sign of a nonnegative original is 1, of a negative
original is -1. -/
lemma speedSign_cases (o : ℤ) :
    (0 ≤ o → speedSign o = 1) ∧ (o < 0 → speedSign o = -1) := by
  constructor
  · intro ho
    unfold speedSign jsSign
    by_cases h : o = 0
    · simp [h]
    · rw [if_neg h, if_pos (by omega)]
  · intro ho
    unfold speedSign jsSign
    rw [if_neg (by omega), if_neg (by omega), if_pos ho]

/-- C9: in the Motor Configuration page, the sign of a motor's `speed_rpm` is
invariant under edits and saves: the value stored by the speed input's
`onChange` and the value `saveChanges` transmits are the original sign
(0 treated as positive) times the entered absolute magnitude, so their sign
never flips relative to the original; and a speed change is detected and
transmitted exactly when the magnitude differs from the original. -/
theorem motorconfig_speed_sign (o cur : ℤ) (inp : Option ℤ) :
    (0 ≤ o → 0 ≤ speedOnChange (some o) cur inp) ∧
    (o < 0 → speedOnChange (some o) cur inp ≤ 0) ∧
    (speedOnChange (some o) cur inp).natAbs = (inp.getD 0).natAbs ∧
    (∀ v, speedUpdate o cur = some v →
      v = speedSign o * (cur.natAbs : ℤ) ∧
      (0 ≤ o → 0 ≤ v) ∧ (o < 0 → v ≤ 0) ∧ v.natAbs = cur.natAbs) ∧
    (speedUpdate o cur = none ↔ cur.natAbs = o.natAbs) ∧
    (speedHasChanges o cur = true ↔ cur.natAbs ≠ o.natAbs) := by
  have hmag : speedOnChange (some o) cur inp =
      speedSign o * ((inp.getD 0).natAbs : ℤ) := by
    cases inp with
    | none => simp [speedOnChange]
    | some v => simp [speedOnChange]
  refine ⟨?_, ?_, ?_, ?_, ?_, ?_⟩
  · intro ho
    rw [hmag, (speedSign_cases o).1 ho, one_mul]
    omega
  · intro ho
    rw [hmag, (speedSign_cases o).2 ho]
    have h0 : (0 : ℤ) ≤ ((inp.getD 0).natAbs : ℤ) := by omega
    omega
  · rw [hmag]
    by_cases ho : 0 ≤ o
    · rw [(speedSign_cases o).1 ho, one_mul]
      omega
    · rw [(speedSign_cases o).2 (by omega)]
      omega
  · intro v hv
    unfold speedUpdate at hv
    by_cases hne : cur.natAbs ≠ o.natAbs
    · rw [if_pos hne, Option.some_inj] at hv
      refine ⟨hv.symm, ?_, ?_, ?_⟩
      · intro ho
        rw [← hv, (speedSign_cases o).1 ho, one_mul]
        omega
      · intro ho
        rw [← hv, (speedSign_cases o).2 ho]
        omega
      · rw [← hv]
        by_cases ho : 0 ≤ o
        · rw [(speedSign_cases o).1 ho, one_mul]
          omega
        · rw [(speedSign_cases o).2 (by omega)]
          omega
    · rw [if_neg hne] at hv
      cases hv
  · unfold speedUpdate
    by_cases hne : cur.natAbs ≠ o.natAbs
    · rw [if_pos hne]
      simp [hne]
    · rw [if_neg hne]
      simp
      omega
  · unfold speedHasChanges
    simp

/-- Witness for `motorconfig_speed_sign`: with an original speed of -200 RPM,
entering a magnitude of 150 stores a nonpositive value. -/
theorem motorconfig_speed_sign_witness :
    (-200 : ℤ) < 0 ∧ speedOnChange (some (-200)) 300 (some 150) ≤ 0 :=
  ⟨by decide, (motorconfig_speed_sign (-200) 300 (some 150)).2.1 (by decide)⟩

/-- From `MotorStatus.tsx`: the shape of the telemetry object the dashboard
consumes (`interface MotorStatus`). -/
structure MotorStatusMsg where
  state : String
  q : List ℚ
  error : List ℤ
  limits : List (Bool × Bool)
deriving DecidableEq, Repr

/-- From `MotorStatus.tsx`:
`isEnabled = status ? ['RUNNING', 'EXECUTING'].includes(status.state) : false`. -/
def isEnabled (status : Option MotorStatusMsg) : Bool :=
  match status with
  | none => false
  | some st => ["RUNNING", "EXECUTING"].contains st.state

/-- From `MotorCard.tsx`: the per-motor status indicator text,
`isEnabled ? 'Active' : 'Inactive'`. -/
def motorCardStatusText (isEn : Bool) : String :=
  if isEn then "Active" else "Inactive"

/-- The `SystemState` enumeration values the spec defines (spec §3). -/
def specSystemStates : List String :=
  ["IDLE", "HOMING", "READY", "EXECUTING", "PAUSED", "ESTOPPED", "ERROR"]

/-- C10: the Motor Status dashboard reports the system (and every motor card)
enabled/Active exactly when the telemetry state string is `RUNNING` or
`EXECUTING`; every other state — including `READY`, `IDLE`, `PAUSED`,
`ESTOPPED` and `ERROR` — renders motors Inactive; and `RUNNING` is not among
the SystemState values the spec defines. -/
theorem motorstatus_enabled_iff (st : MotorStatusMsg) :
    (isEnabled (some st) = true ↔
      (st.state = "RUNNING" ∨ st.state = "EXECUTING")) ∧
    isEnabled none = false ∧
    (∀ sname, sname ∈ ["READY", "IDLE", "PAUSED", "ESTOPPED", "ERROR"] →
      isEnabled (some ⟨sname, st.q, st.error, st.limits⟩) = false ∧
      motorCardStatusText
        (isEnabled (some ⟨sname, st.q, st.error, st.limits⟩)) = "Inactive") ∧
    "RUNNING" ∉ specSystemStates := by
  refine ⟨?_, rfl, ?_, by decide⟩
  · simp [isEnabled, List.contains]
  · intro sname h
    simp only [List.mem_cons, List.not_mem_nil, or_false] at h
    rcases h with rfl | rfl | rfl | rfl | rfl <;> exact ⟨rfl, rfl⟩

/-- Witness for `motorstatus_enabled_iff`: a READY telemetry state renders
Inactive; an EXECUTING one is enabled. -/
theorem motorstatus_enabled_iff_witness :
    isEnabled (some ⟨"READY", [], [], []⟩) = false ∧
    isEnabled (some ⟨"EXECUTING", [], [], []⟩) = true :=
  ⟨((motorstatus_enabled_iff ⟨"READY", [], [], []⟩).2.2.1 "READY"
      (by simp)).1,
    (motorstatus_enabled_iff ⟨"EXECUTING", [], [], []⟩).1.mpr (Or.inr rfl)⟩
